import Mathlib

/-!
Verification of the lithium-framework context storage layer.

The source under scrutiny is the class `_storage` (src/unnamed/part_001,
compiled form in src/unnamed/part_000) — a `Map` subclass from key to
reactive cell with an optional `StateValidator` gating writes — and the
`createStorage` Proxy facade (src/src/create-storage.ts) exposing
property-style reads and writes over it.

Modelling conventions:
* JavaScript primitive values are the inductive `JSVal`; machine details
  (objects, NaN payloads) outside the claims are not modelled.
* A reactive cell (external collaborator `createState` of
  `@lithium-framework/state`, assumed by the spec to expose `value` and a
  `mutator` replacing the held value) is modelled by its key-indexed slot in
  an association list `CellMap`; reading the cell is `readCell`, the raw
  mutator is `writeCell`.
* A thrown JavaScript exception is `Except.error`; a value returned
  normally is `Except.ok`.
* A validator returning a `Promise` is modelled by the settled outcome of
  that promise (`POutcome`): the guarded setter semantics `invokeSetter`
  gives the cell state once the deferred outcome has settled, assuming no
  interleaved operation (the spec's single-threaded cooperative model).
-/

/-- Keys of the record are strings (`StorageKeys<RECORD>`). -/
abbrev Key := String

/-- JavaScript primitive values, the value domain of the store. -/
inductive JSVal where
  | undefined
  | nul
  | bool (b : Bool)
  | num (n : Int)
  | str (s : String)
deriving DecidableEq

/-- Classification of an ECMAScript number produced by ToNumber: an exact
finite rational (the mathematical value of the literal), a signed infinity,
or NaN. -/
inductive NumVal where
  | finite (q : ℚ)
  | inf (pos : Bool)
  | nan

def isStrWhiteSpace (c : Char) : Bool :=
  c.toNat = 9 ∨ c.toNat = 10 ∨ c.toNat = 11 ∨ c.toNat = 12 ∨ c.toNat = 13 ∨
  c.toNat = 32 ∨ c.toNat = 160 ∨ c.toNat = 5760 ∨
  (8192 ≤ c.toNat ∧ c.toNat ≤ 8202) ∨ c.toNat = 8232 ∨ c.toNat = 8233 ∨
  c.toNat = 8239 ∨ c.toNat = 8287 ∨ c.toNat = 12288 ∨ c.toNat = 65279

def trimJs (cs : List Char) : List Char :=
  ((cs.dropWhile isStrWhiteSpace).reverse.dropWhile isStrWhiteSpace).reverse

def digitsToNat (cs : List Char) : Nat :=
  cs.foldl (fun n c => 10 * n + (c.toNat - 48)) 0

def isHexDigit (c : Char) : Bool :=
  c.isDigit ∨ ('a' ≤ c ∧ c ≤ 'f') ∨ ('A' ≤ c ∧ c ≤ 'F')

def isOctDigit (c : Char) : Bool :=
  '0' ≤ c ∧ c ≤ '7'

def isBinDigit (c : Char) : Bool :=
  c = '0' ∨ c = '1'

def hexDigitVal (c : Char) : Nat :=
  if c.isDigit then c.toNat - 48
  else if 'a' ≤ c ∧ c ≤ 'f' then c.toNat - 87
  else c.toNat - 55

def radixVal (r : Nat) (cs : List Char) : Nat :=
  cs.foldl (fun n c => r * n + hexDigitVal c) 0

def parseExpDigits (pos : Bool) (ds : List Char) : Option Int :=
  if ds = [] then none
  else if ds.all Char.isDigit then
    some (if pos then (digitsToNat ds : Int) else -(digitsToNat ds : Int))
  else none

def parseExponent : List Char → Option Int
  | [] => some 0
  | c :: rest =>
    if c = 'e' ∨ c = 'E' then
      match rest with
      | '+' :: ds => parseExpDigits true ds
      | '-' :: ds => parseExpDigits false ds
      | ds => parseExpDigits true ds
    else none

def decMV (digits : Nat) (fracLen : Nat) (e : Int) : ℚ :=
  if 0 ≤ e then mkRat (digits * 10 ^ e.toNat) (10 ^ fracLen)
  else mkRat digits (10 ^ fracLen * 10 ^ (-e).toNat)

def parseUnsignedDec (cs : List Char) : Option ℚ :=
  let ip := cs.takeWhile Char.isDigit
  match cs.dropWhile Char.isDigit with
  | '.' :: rest2 =>
    let fp := rest2.takeWhile Char.isDigit
    if ip = [] ∧ fp = [] then none
    else
      (parseExponent (rest2.dropWhile Char.isDigit)).map
        (fun e => decMV (digitsToNat (ip ++ fp)) fp.length e)
  | rest =>
    if ip = [] then none
    else (parseExponent rest).map (fun e => decMV (digitsToNat ip) 0 e)

def parseUnsignedTop (cs : List Char) : NumVal :=
  if cs = "Infinity".data then .inf true
  else
    match parseUnsignedDec cs with
    | some q => .finite q
    | none => .nan

def strNumCore (cs : List Char) : NumVal :=
  match cs with
  | '0' :: 'x' :: rest =>
    if rest ≠ [] ∧ rest.all isHexDigit then .finite (mkRat (radixVal 16 rest) 1)
    else .nan
  | '0' :: 'X' :: rest =>
    if rest ≠ [] ∧ rest.all isHexDigit then .finite (mkRat (radixVal 16 rest) 1)
    else .nan
  | '0' :: 'o' :: rest =>
    if rest ≠ [] ∧ rest.all isOctDigit then .finite (mkRat (radixVal 8 rest) 1)
    else .nan
  | '0' :: 'O' :: rest =>
    if rest ≠ [] ∧ rest.all isOctDigit then .finite (mkRat (radixVal 8 rest) 1)
    else .nan
  | '0' :: 'b' :: rest =>
    if rest ≠ [] ∧ rest.all isBinDigit then .finite (mkRat (radixVal 2 rest) 1)
    else .nan
  | '0' :: 'B' :: rest =>
    if rest ≠ [] ∧ rest.all isBinDigit then .finite (mkRat (radixVal 2 rest) 1)
    else .nan
  | '+' :: rest =>
    match parseUnsignedTop rest with
    | .finite q => .finite q
    | .inf _ => .inf true
    | .nan => .nan
  | '-' :: rest =>
    match parseUnsignedTop rest with
    | .finite q => .finite (-q)
    | .inf _ => .inf false
    | .nan => .nan
  | _ => parseUnsignedTop cs

def strToNumber (s : String) : NumVal :=
  match trimJs s.data with
  | [] => .finite 0
  | cs => strNumCore cs

/-- ECMAScript ToNumber on `JSVal`, with the string case kept as the exact
mathematical value of the literal. -/
def toNumber : JSVal → NumVal
  | .undefined => .nan
  | .nul => .finite 0
  | .bool true => .finite 1
  | .bool false => .finite 0
  | .num n => .finite (mkRat n 1)
  | .str s => strToNumber s

/-- The rationals whose nearest IEEE double under round-to-nearest,
ties-to-even is exactly 1.0: the neighbouring doubles are `1 - 2 ^ (-53)`
and `1 + 2 ^ (-52)`, so the interval is `[1 - 2 ^ (-54), 1 + 2 ^ (-53)]`,
both midpoint ties rounding to the even mantissa of 1.0. Stated over the
numerator and denominator to stay within integer arithmetic. -/
def roundsToOne (q : ℚ) : Bool :=
  decide ((2 ^ 54 - 1) * (q.den : Int) ≤ 2 ^ 54 * q.num) &&
  decide (2 ^ 53 * q.num ≤ (2 ^ 53 + 1) * (q.den : Int))


/-- The test `result == true` of the source: ECMAScript loose equality
coerces `true` to the number 1, then compares `ToNumber(result)` with 1
numerically (on doubles, hence `roundsToOne`); `null` and `undefined`
only equal each other, and NaN or an infinity never equals 1. -/
def looseEqTrue (v : JSVal) : Bool :=
  match v with
  | .nul => false
  | .undefined => false
  | v =>
    match toNumber v with
    | .finite q => roundsToOne q
    | _ => false

/-- ECMAScript truthiness of a `JSVal` (the `if (target[key])` test and the
strict-mode check of a Proxy set trap result). -/
def truthy : JSVal → Bool
  | .undefined => false
  | .nul => false
  | .bool b => b
  | .num n => decide (n ≠ 0)
  | .str s => decide (s ≠ "")

/-- Settled outcome of a `Promise` returned by a validator. -/
inductive POutcome where
  | resolves (v : JSVal)
  | rejects (e : JSVal)

/-- A validator result: a synchronous value, or a deferred outcome
(the `result instanceof Promise` branch of the source). -/
inductive VRes where
  | sync (r : JSVal)
  | deferred (p : POutcome)

/-- A `StateValidator`: receives key, previousValue, newValue; returns a
result or throws (`Except.error`). -/
abbrev ValidatorFn := Key → JSVal → JSVal → Except JSVal VRes

/-- The per-store configuration: the optional `_validator` field, set once
by the constructor and never changed afterwards. -/
structure StoreModel where
  validator : Option ValidatorFn

/-- The mutable cell states of the store: one entry per Map key, holding
the current value of that key's reactive cell. -/
abbrev CellMap := List (Key × JSVal)

/-- Current value of the cell under `k` (`Map.prototype.get` composed with
reading `state.value`); `none` when no entry exists. -/
def readCell : CellMap → Key → Option JSVal
  | [], _ => none
  | (k', w) :: t, k => if k' = k then some w else readCell t k

/-- `Map.prototype.has`: an entry for `k` exists. -/
def hasKey (m : CellMap) (k : Key) : Bool :=
  (readCell m k).isSome

/-- The raw cell mutator (`setter` of the `State` pair): replaces the value
held by the cell under `k`; a no-op when no such cell exists. -/
def writeCell : CellMap → Key → JSVal → CellMap
  | [], _, _ => []
  | (k', w) :: t, k, v =>
    if k' = k then (k', v) :: writeCell t k v else (k', w) :: writeCell t k v

/-- `Map.prototype.set`: replace the entry under `k` or append a new one. -/
def mapSet (m : CellMap) (k : Key) (v : JSVal) : CellMap :=
  if hasKey m k then writeCell m k v else m ++ [(k, v)]

/-- `Map.prototype.delete` (inherited by `_storage`, reachable through the
facade): removes the entry under `k`. -/
def mapDelete (m : CellMap) (k : Key) : CellMap :=
  m.filter (fun p => p.1 ≠ k)

/-- The `_storage` constructor: for each key of the initial record, insert a
fresh cell holding that key's value (`this.set(key, createState(records[key]))`). -/
def initCells (records : List (Key × JSVal)) : CellMap :=
  records.foldl (fun m p => mapSet m p.1 p.2) []

/-- The TypeError raised by the JavaScript runtime (destructuring
`undefined`, or a strict-mode assignment whose Proxy set trap returns a
falsy value). -/
def typeError : JSVal := .str "TypeError"

/-- The setter component of the pair returned by `_storage.get`: either the
raw cell mutator (no validator bound) or the guarded closure capturing the
key and the validator. The closure captures the cell and `this._validator`,
never the cell value, so the setter is identified by key and validator. -/
inductive SetterK where
  | raw (k : Key)
  | guarded (k : Key) (f : ValidatorFn)

/-- The setter `_storage.get` hands out for key `k` under configuration `s`. -/
def setterOf (s : StoreModel) (k : Key) : SetterK :=
  match s.validator with
  | none => .raw k
  | some f => .guarded k f

/-- `_storage.get(key)`. Without a validator it returns `super.get(key)` —
the stored pair, or `undefined` (`.ok none`) when absent. With a validator
it destructures `super.get(key)!`; on an absent key that destructures
`undefined`, so the runtime throws a TypeError. On a present key it returns
the pair `(cell, guardedSetter)`. The cell component of a pair is
identified by its key. -/
def storageGet (s : StoreModel) (m : CellMap) (k : Key) :
    Except JSVal (Option (Key × SetterK)) :=
  match s.validator with
  | none =>
    match readCell m k with
    | none => .ok none
    | some _ => .ok (some (k, SetterK.raw k))
  | some f =>
    match readCell m k with
    | none => .error typeError
    | some _ => .ok (some (k, SetterK.guarded k f))

/-- Invoking a setter at call-time cell state `m` with proposed value `v`.
Returns the cell state after the call has settled (for a deferred validator
outcome: after the promise settles, with no interleaved operation), paired
with the list of errors logged via `console.error`; `Except.error` when an
exception escapes to the caller. Faithful to the source: `previousValue`
is `state.value` read at call time; a deferred outcome commits on any
resolution and logs without committing on rejection; a synchronous result
commits exactly when `result == true`. -/
def invokeSetter (sk : SetterK) (m : CellMap) (v : JSVal) :
    Except JSVal (CellMap × List JSVal) :=
  match sk with
  | .raw k => .ok (writeCell m k v, [])
  | .guarded k f =>
    match f k ((readCell m k).getD .undefined) v with
    | .error e => .error e
    | .ok (.sync r) =>
      if looseEqTrue r then .ok (writeCell m k v, []) else .ok (m, [])
    | .ok (.deferred (.resolves _)) => .ok (writeCell m k v, [])
    | .ok (.deferred (.rejects e)) => .ok (m, [e])

/-- A property of the `_storage` object itself (`target[key]`): a
function-valued property (own method, inherited Map or Object.prototype
method, or the bound validator function), the numeric `size` accessor, a
plain object such as the `__proto__` accessor result, or the `null` value
of `_validator` when no validator is bound. -/
inductive PropVal where
  | fn (name : String)
  | num (n : Nat)
  | obj
  | nul
deriving DecidableEq

/-- Function-valued properties of a `_storage` instance reachable by a
string key: its own `get`, the inherited `Map.prototype` methods and
`constructor`, and the inherited function-valued `Object.prototype`
utilities. -/
def storeMethodNames : List String :=
  ["get", "set", "has", "delete", "clear", "forEach", "entries", "keys",
   "values", "constructor", "toString", "toLocaleString", "valueOf",
   "hasOwnProperty", "isPrototypeOf", "propertyIsEnumerable",
   "__defineGetter__", "__defineSetter__", "__lookupGetter__",
   "__lookupSetter__"]

/-- Every relevant store property name (`target[key]` is not `undefined`):
the own `_validator` field, the inherited `size` and `__proto__`
accessors, and the function-valued properties. -/
def storePropNames : List String :=
  "_validator" :: "size" :: "__proto__" :: storeMethodNames

/-- The property lookup `target[key]` on the `_storage` instance:
`_validator` (the bound function, or `null`), the `size` accessor (number
of entries), the `__proto__` accessor (the prototype object — truthy but
not a function), or an inherited method. Data keys live in the Map store,
not as properties, so they yield `none` here. -/
def targetProp (s : StoreModel) (m : CellMap) (k : Key) : Option PropVal :=
  if k = "_validator" then
    some (match s.validator with
          | some _ => PropVal.fn "_validator"
          | none => PropVal.nul)
  else if k = "size" then some (PropVal.num m.length)
  else if k = "__proto__" then some PropVal.obj
  else if storeMethodNames.contains k then some (PropVal.fn k)
  else none

/-- Truthiness of a store property value. -/
def propTruthy : PropVal → Bool
  | .fn _ => true
  | .num n => decide (n ≠ 0)
  | .obj => true
  | .nul => false

/-- Result of a property-style read `handle[key]` through the Proxy get
trap. -/
inductive ReadResult where
  | boundMethod (name : String)
  | value (p : PropVal)
  | pair (k : Key) (sk : SetterK)
  | thrown (e : JSVal)
  | undefined

/-- The fallthrough of the get trap once `target[key]` is falsy or absent:
`else if (target.has(key)) return target.get(key); else return undefined`. -/
def proxyReadFallback (s : StoreModel) (m : CellMap) (k : Key) : ReadResult :=
  if hasKey m k then
    match storageGet s m k with
    | .ok (some pr) => .pair pr.1 pr.2
    | .ok none => .undefined
    | .error e => .thrown e
  else .undefined

/-- The Proxy get trap of `createStorage`: if `target[key]` is truthy,
return it bound when it is a function, as-is otherwise; else fall through
to the Map lookup. -/
def proxyRead (s : StoreModel) (m : CellMap) (k : Key) : ReadResult :=
  match targetProp s m k with
  | some p =>
    if propTruthy p then
      match p with
      | .fn n => .boundMethod n
      | _ => .value p
    else proxyReadFallback s m k
  | none => proxyReadFallback s m k

/-- The Proxy set trap of `createStorage`: on a present key, invoke index 1
of the pair returned by `target.get(key)` with the new value and report
`true`; on an absent key return `undefined`. The third component is the
trap's return value. -/
def setTrap (s : StoreModel) (m : CellMap) (k : Key) (v : JSVal) :
    Except JSVal (CellMap × List JSVal × JSVal) :=
  if hasKey m k then
    match storageGet s m k with
    | .error e => .error e
    | .ok none => .error typeError
    | .ok (some pr) =>
      match invokeSetter pr.2 m v with
      | .error e => .error e
      | .ok (m', log) => .ok (m', log, .bool true)
  else .ok (m, [], .undefined)

/-- The property-style assignment `handle[key] = value`. The repository is
compiled as ES modules, hence strict mode: when the set trap returns a
falsy value the runtime throws a TypeError at the assignment site. -/
def propAssign (s : StoreModel) (m : CellMap) (k : Key) (v : JSVal) :
    Except JSVal (CellMap × List JSVal) :=
  match setTrap s m k v with
  | .error e => .error e
  | .ok (m', log, r) => if truthy r then .ok (m', log) else .error typeError

/-- Operations reachable through the store handle: the explicit accessors,
property-style read and write, and the inherited Map mutators that the get
trap hands out as bound methods. -/
inductive HOp where
  | hGet (k : Key)
  | hHas (k : Key)
  | hRead (k : Key)
  | hWrite (k : Key) (v : JSVal)
  | hDelete (k : Key)
  | hClear
  | hMapSet (k : Key) (v : JSVal)

/-- Effect of one handle operation on the cell states. Reads and `has`
leave the cells untouched (even when they throw); a property write that
throws leaves the cells as the trap left them before the exception —
in this model, unchanged, since every exception path precedes the commit. -/
def applyHOp (s : StoreModel) (m : CellMap) : HOp → CellMap
  | .hGet _ => m
  | .hHas _ => m
  | .hRead _ => m
  | .hWrite k v =>
    match propAssign s m k v with
    | .ok (m', _) => m'
    | .error _ => m
  | .hDelete k => mapDelete m k
  | .hClear => []
  | .hMapSet k v => mapSet m k v

/-- Effect of a sequence of handle operations. -/
def applyHOps (s : StoreModel) (m : CellMap) (ops : List HOp) : CellMap :=
  ops.foldl (applyHOp s) m

/-- The operations of the spec's StoreHandle surface: everything except the
inherited Map mutators. -/
def benign : HOp → Bool
  | .hDelete _ => false
  | .hClear => false
  | .hMapSet _ _ => false
  | _ => true

/-- A validator approving every change synchronously. -/
def alwaysTrueValidator : ValidatorFn :=
  fun _ _ _ => .ok (.sync (.bool true))

/-- A validator rejecting every change synchronously. -/
def alwaysFalseValidator : ValidatorFn :=
  fun _ _ _ => .ok (.sync (.bool false))

/-- A validator that throws. -/
def throwingValidator : ValidatorFn :=
  fun _ _ _ => .error (.str "boom")

/-- A validator returning a promise that resolves with `false`. -/
def resolveFalseValidator : ValidatorFn :=
  fun _ _ _ => .ok (.deferred (.resolves (.bool false)))

/-- A validator returning the synchronous number 1 (loosely equal to `true`). -/
def syncOneValidator : ValidatorFn :=
  fun _ _ _ => .ok (.sync (.num 1))

/-- A validator approving exactly when `previousValue` equals `probe`; used
to observe which previous value the guarded setter passes in. -/
def probeValidator (probe : JSVal) : ValidatorFn :=
  fun _ prev _ => .ok (.sync (.bool (decide (prev = probe))))

/-- Claim C8 as stated: for every key and store state, a property-style
read returns the bound method when the key names a store method or
intrinsic, the same pair as `get` when the key is a present data key, and
`undefined` otherwise. -/
def C8AsStated : Prop :=
  ∀ (s : StoreModel) (m : CellMap) (k : Key),
    (storePropNames.contains k = true →
      ∃ n, proxyRead s m k = ReadResult.boundMethod n) ∧
    (storePropNames.contains k = false → hasKey m k = true →
      ∀ pr, storageGet s m k = .ok (some pr) →
        proxyRead s m k = ReadResult.pair pr.1 pr.2) ∧
    (storePropNames.contains k = false → hasKey m k = false →
      proxyRead s m k = ReadResult.undefined)

theorem readCell_some_of_hasKey {m : CellMap} {k : Key} (h : hasKey m k = true) :
    ∃ v, readCell m k = some v := by
  unfold hasKey at h
  exact Option.isSome_iff_exists.mp h

theorem readCell_writeCell_self {m : CellMap} {k : Key} (v : JSVal)
    (h : hasKey m k = true) : readCell (writeCell m k v) k = some v := by
  induction m with
  | nil => simp [hasKey, readCell] at h
  | cons p t ih =>
    obtain ⟨k', w⟩ := p
    by_cases hk : k' = k
    · subst hk
      simp [writeCell, readCell]
    · simp [hasKey, writeCell, readCell, hk] at h ⊢
      exact ih h

theorem hasKey_writeCell (m : CellMap) (k : Key) (v : JSVal) (k' : Key) :
    hasKey (writeCell m k v) k' = hasKey m k' := by
  induction m with
  | nil => rfl
  | cons p t ih =>
    obtain ⟨k0, w⟩ := p
    by_cases hk : k0 = k
    · subst hk
      by_cases hk' : k0 = k'
      · subst hk'
        simp [hasKey, writeCell, readCell]
      · simp [hasKey, writeCell, readCell, hk'] at ih ⊢
        exact ih
    · by_cases hk' : k0 = k'
      · subst hk'
        simp [hasKey, writeCell, readCell, hk]
      · simp [hasKey, writeCell, readCell, hk, hk'] at ih ⊢
        exact ih

theorem storageGet_present {m : CellMap} {k : Key} {w : JSVal} (s : StoreModel)
    (h : readCell m k = some w) :
    storageGet s m k = .ok (some (k, setterOf s k)) := by
  cases hv : s.validator with
  | none => simp [storageGet, setterOf, hv, h]
  | some f => simp [storageGet, setterOf, hv, h]

theorem invokeSetter_cells {sk : SetterK} {m : CellMap} {v : JSVal}
    {m' : CellMap} {log : List JSVal}
    (h : invokeSetter sk m v = .ok (m', log)) :
    m' = m ∨ ∃ k', m' = writeCell m k' v := by
  cases sk with
  | raw k =>
    unfold invokeSetter at h
    injection h with h
    injection h with h1 h2
    exact Or.inr ⟨k, h1.symm⟩
  | guarded k f =>
    have hrw : invokeSetter (SetterK.guarded k f) m v =
        (match f k ((readCell m k).getD .undefined) v with
         | .error e => .error e
         | .ok (.sync r) =>
           if looseEqTrue r then .ok (writeCell m k v, []) else .ok (m, [])
         | .ok (.deferred (.resolves _)) => .ok (writeCell m k v, [])
         | .ok (.deferred (.rejects e)) => .ok (m, [e])) := rfl
    rw [hrw] at h
    split at h
    · exact Except.noConfusion h
    · split at h
      · injection h with h
        injection h with h1 h2
        exact Or.inr ⟨k, h1.symm⟩
      · injection h with h
        injection h with h1 h2
        exact Or.inl h1.symm
    · injection h with h
      injection h with h1 h2
      exact Or.inr ⟨k, h1.symm⟩
    · injection h with h
      injection h with h1 h2
      exact Or.inl h1.symm

theorem targetProp_eq_none {k : Key} (s : StoreModel) (m : CellMap)
    (h : ¬ k ∈ storePropNames) : targetProp s m k = none := by
  simp only [storePropNames, List.mem_cons, not_or] at h
  obtain ⟨h1, h2, h3, h4⟩ := h
  unfold targetProp
  rw [if_neg h1, if_neg h2, if_neg h3, if_neg (by simpa using h4)]

/-- Claim C1 (amended): when no validator is bound, `get` on an absent key
returns the absent signal (`undefined`) without throwing; when a validator
is bound, `get` on an absent key throws a TypeError (the source
destructures `super.get(key)!`, which is `undefined`). -/
theorem C1_get_absent (m : CellMap) (k : Key) (h : readCell m k = none) :
    storageGet ⟨none⟩ m k = .ok none ∧
    ∀ f : ValidatorFn, storageGet ⟨some f⟩ m k = .error typeError := by
  constructor
  · simp [storageGet, h]
  · intro f
    simp [storageGet, h]

/-- Witness for C1 at a concrete input. -/
theorem C1_get_absent_witness :
    storageGet ⟨none⟩ [("a", JSVal.num 0)] "b" = .ok none :=
  (C1_get_absent [("a", JSVal.num 0)] "b" rfl).1

/-- Counterexample to claim C1 as stated: with a validator bound, `get` on
the absent key "b" throws a TypeError rather than returning the absent
signal. -/
theorem C1_counterexample :
    storageGet ⟨some alwaysTrueValidator⟩ [("a", JSVal.num 0)] "b"
      = .error typeError := rfl

/-- Claim C2: with a validator bound, a deferred outcome commits the new
value upon any successful resolution (whatever the resolved value, `false`
included), and upon rejection logs the error and leaves the cells
untouched. -/
theorem C2_deferred_outcome (f : ValidatorFn) (k : Key) (m : CellMap) (v : JSVal) :
    (∀ r, f k ((readCell m k).getD .undefined) v = .ok (.deferred (.resolves r)) →
      invokeSetter (.guarded k f) m v = .ok (writeCell m k v, [])) ∧
    (∀ e, f k ((readCell m k).getD .undefined) v = .ok (.deferred (.rejects e)) →
      invokeSetter (.guarded k f) m v = .ok (m, [e])) := by
  constructor
  · intro r hr
    simp [invokeSetter, hr]
  · intro e he
    simp [invokeSetter, he]

/-- Witness for C2: a promise resolving with `false` still commits. -/
theorem C2_deferred_outcome_witness :
    invokeSetter (SetterK.guarded "a" resolveFalseValidator)
      [("a", JSVal.num 0)] (JSVal.num 5) = .ok ([("a", JSVal.num 5)], []) :=
  (C2_deferred_outcome resolveFalseValidator "a" [("a", JSVal.num 0)]
    (JSVal.num 5)).1 (JSVal.bool false) rfl

/-- Claim C3: on a present key, a synchronous `false` from the validator,
or a rejection of its deferred outcome, leaves the cell state exactly as it
was before the guarded-setter call — the result state is `m` itself. -/
theorem C3_rejection_keeps_value (f : ValidatorFn) (k : Key) (m : CellMap)
    (v : JSVal) (hk : hasKey m k = true) :
    (f k ((readCell m k).getD .undefined) v = .ok (.sync (.bool false)) →
      invokeSetter (.guarded k f) m v = .ok (m, [])) ∧
    (∀ e, f k ((readCell m k).getD .undefined) v = .ok (.deferred (.rejects e)) →
      invokeSetter (.guarded k f) m v = .ok (m, [e])) := by
  constructor
  · intro hr
    have hfalse : looseEqTrue (.bool false) = false := rfl
    simp [invokeSetter, hr, hfalse]
  · intro e he
    simp [invokeSetter, he]

/-- Witness for C3: an always-false validator leaves the cell holding 0. -/
theorem C3_rejection_keeps_value_witness :
    invokeSetter (SetterK.guarded "a" alwaysFalseValidator)
      [("a", JSVal.num 0)] (JSVal.num 5) = .ok ([("a", JSVal.num 0)], []) :=
  (C3_rejection_keeps_value alwaysFalseValidator "a" [("a", JSVal.num 0)]
    (JSVal.num 5) rfl).1 rfl

/-- Claim C10: a synchronous validator result `r` commits exactly when
`r == true` under loose equality; in particular `true`, the number 1 and
numeric strings whose ToNumber value is 1 (such as "1", "1.0", "0x1",
"1e0", or a no-break-space-padded "1") commit, while the non-numeric
non-empty string "abc" and every falsy value do not, with no signal to
the caller (normal return, empty log, cells unchanged). -/
theorem C10_sync_loose_equality (f : ValidatorFn) (k : Key) (m : CellMap)
    (v r : JSVal) (hr : f k ((readCell m k).getD .undefined) v = .ok (.sync r)) :
    (looseEqTrue r = true →
      invokeSetter (.guarded k f) m v = .ok (writeCell m k v, [])) ∧
    (looseEqTrue r = false →
      invokeSetter (.guarded k f) m v = .ok (m, [])) ∧
    (looseEqTrue (.bool true) = true ∧ looseEqTrue (.num 1) = true ∧
     looseEqTrue (.str "1") = true ∧ looseEqTrue (.str "1.0") = true ∧
     looseEqTrue (.str "0x1") = true ∧ looseEqTrue (.str "1e0") = true ∧
     looseEqTrue (.str "\u00A01") = true ∧
     looseEqTrue (.str "abc") = false ∧ looseEqTrue (.bool false) = false ∧
     looseEqTrue (.num 0) = false ∧ looseEqTrue (.str "") = false ∧
     looseEqTrue .undefined = false ∧ looseEqTrue .nul = false) := by
  refine ⟨fun h => ?_, fun h => ?_, by decide⟩
  · simp [invokeSetter, hr, h]
  · simp [invokeSetter, hr, h]

/-- Witness for C10: the synchronous result 1 (loosely equal to `true`)
commits the proposed value. -/
theorem C10_sync_loose_equality_witness :
    invokeSetter (SetterK.guarded "a" syncOneValidator)
      [("a", JSVal.num 0)] (JSVal.num 5) = .ok ([("a", JSVal.num 5)], []) :=
  (C10_sync_loose_equality syncOneValidator "a" [("a", JSVal.num 0)]
    (JSVal.num 5) (JSVal.num 1) rfl).1 rfl

theorem invokeSetter_guarded_eq (f : ValidatorFn) (k : Key) (m : CellMap)
    (v : JSVal) :
    invokeSetter (SetterK.guarded k f) m v =
      (match f k ((readCell m k).getD .undefined) v with
       | .error e => .error e
       | .ok (.sync r) =>
         if looseEqTrue r then .ok (writeCell m k v, []) else .ok (m, [])
       | .ok (.deferred (.resolves _)) => .ok (writeCell m k v, [])
       | .ok (.deferred (.rejects e)) => .ok (m, [e])) := rfl

theorem invokeSetter_sync (f : ValidatorFn) (k : Key) (m : CellMap) (v r : JSVal)
    (hr : f k ((readCell m k).getD .undefined) v = .ok (.sync r)) :
    invokeSetter (SetterK.guarded k f) m v =
      if looseEqTrue r then .ok (writeCell m k v, []) else .ok (m, []) := by
  rw [invokeSetter_guarded_eq, hr]

theorem invokeSetter_resolves (f : ValidatorFn) (k : Key) (m : CellMap) (v r : JSVal)
    (hr : f k ((readCell m k).getD .undefined) v = .ok (.deferred (.resolves r))) :
    invokeSetter (SetterK.guarded k f) m v = .ok (writeCell m k v, []) := by
  rw [invokeSetter_guarded_eq, hr]

theorem invokeSetter_rejects (f : ValidatorFn) (k : Key) (m : CellMap) (v e : JSVal)
    (hr : f k ((readCell m k).getD .undefined) v = .ok (.deferred (.rejects e))) :
    invokeSetter (SetterK.guarded k f) m v = .ok (m, [e]) := by
  rw [invokeSetter_guarded_eq, hr]

theorem invokeSetter_throws (f : ValidatorFn) (k : Key) (m : CellMap) (v e : JSVal)
    (hr : f k ((readCell m k).getD .undefined) v = .error e) :
    invokeSetter (SetterK.guarded k f) m v = .error e := by
  rw [invokeSetter_guarded_eq, hr]

theorem setTrap_present_none (m : CellMap) (k : Key) (v w : JSVal)
    (hw : readCell m k = some w) :
    setTrap ⟨none⟩ m k v = .ok (writeCell m k v, [], .bool true) := by
  have hk : hasKey m k = true := by simp [hasKey, hw]
  unfold setTrap
  rw [if_pos hk, storageGet_present ⟨none⟩ hw]
  rfl

theorem setTrap_present_some (f : ValidatorFn) (m : CellMap) (k : Key)
    (v w : JSVal) (hw : readCell m k = some w) :
    setTrap ⟨some f⟩ m k v =
      (match invokeSetter (SetterK.guarded k f) m v with
       | .error e => .error e
       | .ok (m', log) => .ok (m', log, JSVal.bool true)) := by
  have hk : hasKey m k = true := by simp [hasKey, hw]
  unfold setTrap
  rw [if_pos hk, storageGet_present ⟨some f⟩ hw]
  rfl

theorem setTrap_present_match (s : StoreModel) (m : CellMap) (k : Key)
    (v w : JSVal) (hw : readCell m k = some w) :
    setTrap s m k v =
      (match invokeSetter (setterOf s k) m v with
       | .error e => .error e
       | .ok (m', log) => .ok (m', log, JSVal.bool true)) := by
  have hk : hasKey m k = true := by simp [hasKey, hw]
  unfold setTrap
  rw [if_pos hk, storageGet_present s hw]

/-- Claim C4: a property-style write on a present key invokes index 1 of
the pair returned by the store's own `get`: the trap outcome is exactly the
outcome of invoking that setter, and that setter is the guarded setter when
a validator is bound and the raw cell mutator otherwise — the facade adds
no validation of its own. -/
theorem C4_write_uses_get_setter (s : StoreModel) (m : CellMap) (k : Key)
    (v : JSVal) (hk : hasKey m k = true) :
    storageGet s m k = .ok (some (k, setterOf s k)) ∧
    (∀ m' log, invokeSetter (setterOf s k) m v = .ok (m', log) →
      setTrap s m k v = .ok (m', log, .bool true)) ∧
    (∀ e, invokeSetter (setterOf s k) m v = .error e →
      setTrap s m k v = .error e) ∧
    (s.validator = none → setterOf s k = .raw k) ∧
    (∀ f, s.validator = some f → setterOf s k = .guarded k f) := by
  obtain ⟨w, hw⟩ := readCell_some_of_hasKey hk
  have hst := setTrap_present_match s m k v w hw
  refine ⟨storageGet_present s hw, ?_, ?_, ?_, ?_⟩
  · intro m' log hinv
    rw [hst, hinv]
  · intro e hinv
    rw [hst, hinv]
  · intro hv
    simp [setterOf, hv]
  · intro f hv
    simp [setterOf, hv]

/-- Witness for C4: with no validator, a write through the trap commits via
the raw mutator and the trap reports success. -/
theorem C4_write_uses_get_setter_witness :
    setTrap ⟨none⟩ [("a", JSVal.num 0)] "a" (JSVal.num 5)
      = .ok ([("a", JSVal.num 5)], [], .bool true) :=
  (C4_write_uses_get_setter ⟨none⟩ [("a", JSVal.num 0)] "a" (JSVal.num 5)
    rfl).2.1 [("a", JSVal.num 5)] [] rfl

/-- Counterexample to claim C5 as stated: for the initial-record key "get",
the property-style write commits, but the subsequent property-style read
returns the bound store method rather than the written value. -/
theorem C5_counterexample :
    propAssign ⟨none⟩ (initCells [("get", JSVal.num 0)]) "get" (JSVal.num 7)
      = .ok ([("get", JSVal.num 7)], []) ∧
    proxyRead ⟨none⟩ [("get", JSVal.num 7)] "get" = .boundMethod "get" :=
  ⟨rfl, rfl⟩

/-- Claim C5 (amended): with no validator bound, for every present key that
does not collide with a store property name (an own or inherited property:
a Map or Object.prototype method such as `get` or `toString`, `size`,
`__proto__`, or `_validator`), a property-style write commits the value
through the raw cell mutator and a subsequent property-style read yields
the cell pair holding the written value; for a colliding key the write
still commits but the read returns the store property instead. -/
theorem C5_unguarded_passthrough (m : CellMap) (k : Key) (v : JSVal)
    (hk : hasKey m k = true) (hp : ¬ k ∈ storePropNames) :
    propAssign ⟨none⟩ m k v = .ok (writeCell m k v, []) ∧
    proxyRead ⟨none⟩ (writeCell m k v) k = .pair k (SetterK.raw k) ∧
    readCell (writeCell m k v) k = some v := by
  obtain ⟨w, hw⟩ := readCell_some_of_hasKey hk
  refine ⟨?_, ?_, readCell_writeCell_self v hk⟩
  · unfold propAssign
    rw [setTrap_present_none m k v w hw]
    rfl
  · have hkw : hasKey (writeCell m k v) k = true := by
      rw [hasKey_writeCell]
      exact hk
    have hrc : readCell (writeCell m k v) k = some v :=
      readCell_writeCell_self v hk
    unfold proxyRead
    rw [targetProp_eq_none ⟨none⟩ (writeCell m k v) hp]
    unfold proxyReadFallback
    rw [if_pos hkw, storageGet_present ⟨none⟩ hrc]
    rfl

/-- Witness for C5 at a concrete input. -/
theorem C5_unguarded_passthrough_witness :
    propAssign ⟨none⟩ [("a", JSVal.num 0)] "a" (JSVal.num 7)
      = .ok ([("a", JSVal.num 7)], []) :=
  (C5_unguarded_passthrough [("a", JSVal.num 0)] "a" (JSVal.num 7) rfl
    (by decide)).1

/-- Counterexample to claim C6 as stated: a guarded write whose validator
throws propagates the exception to the caller, and a property-style write
to an absent key throws a TypeError (strict-mode assignment with a falsy
trap result). -/
theorem C6_counterexample :
    propAssign ⟨some throwingValidator⟩ [("a", JSVal.num 0)] "a" (JSVal.num 1)
      = .error (.str "boom") ∧
    propAssign ⟨none⟩ [("a", JSVal.num 0)] "b" (JSVal.num 1)
      = .error typeError :=
  ⟨rfl, rfl⟩

/-- Claim C6 (amended): synchronous validator rejection and deferred
validation failure are handled inside the store (the write returns
normally, the failure at most logged); but a property-style write to an
absent key throws a TypeError, and a guarded write whose validator throws
propagates that exception to the caller. -/
theorem C6_propagation (f : ValidatorFn) (m : CellMap) (k : Key) (v : JSVal) :
    (hasKey m k = true →
      f k ((readCell m k).getD .undefined) v = .ok (.sync (.bool false)) →
      propAssign ⟨some f⟩ m k v = .ok (m, [])) ∧
    (∀ e, hasKey m k = true →
      f k ((readCell m k).getD .undefined) v = .ok (.deferred (.rejects e)) →
      propAssign ⟨some f⟩ m k v = .ok (m, [e])) ∧
    (∀ s : StoreModel, hasKey m k = false →
      propAssign s m k v = .error typeError) ∧
    (∀ e, hasKey m k = true →
      f k ((readCell m k).getD .undefined) v = .error e →
      propAssign ⟨some f⟩ m k v = .error e) := by
  refine ⟨?_, ?_, ?_, ?_⟩
  · intro hk hr
    obtain ⟨w, hw⟩ := readCell_some_of_hasKey hk
    unfold propAssign
    rw [setTrap_present_some f m k v w hw,
      invokeSetter_sync f k m v (JSVal.bool false) hr]
    rfl
  · intro e hk hr
    obtain ⟨w, hw⟩ := readCell_some_of_hasKey hk
    unfold propAssign
    rw [setTrap_present_some f m k v w hw, invokeSetter_rejects f k m v e hr]
    rfl
  · intro s hk0
    unfold propAssign setTrap
    rw [if_neg (by simp [hk0])]
    rfl
  · intro e hk hr
    obtain ⟨w, hw⟩ := readCell_some_of_hasKey hk
    unfold propAssign
    rw [setTrap_present_some f m k v w hw, invokeSetter_throws f k m v e hr]

/-- Witness for C6: a synchronous rejection returns normally, cells
untouched, nothing logged. -/
theorem C6_propagation_witness :
    propAssign ⟨some alwaysFalseValidator⟩ [("a", JSVal.num 0)] "a"
      (JSVal.num 1) = .ok ([("a", JSVal.num 0)], []) :=
  (C6_propagation alwaysFalseValidator [("a", JSVal.num 0)] "a"
    (JSVal.num 1)).1 rfl rfl

/-- Claim C7: the guarded setter reads `previousValue` at call time, not at
`get` time. The setter obtained from `get` at a state where the cell holds
`v0`, invoked after the cell has been mutated to `v1`, hands the validator
the new value: a validator approving exactly when `previousValue = v1`
commits in that scenario, and rejects when the same setter is invoked on
the unmutated state. -/
theorem C7_fresh_previous_value (m : CellMap) (k : Key) (v0 v1 v : JSVal)
    (pr : Key × SetterK) (hne : v0 ≠ v1) (h0 : readCell m k = some v0)
    (hget : storageGet ⟨some (probeValidator v1)⟩ m k = .ok (some pr)) :
    invokeSetter pr.2 (writeCell m k v1) v
      = .ok (writeCell (writeCell m k v1) k v, []) ∧
    invokeSetter pr.2 m v = .ok (m, []) := by
  have hk : hasKey m k = true := by simp [hasKey, h0]
  rw [storageGet_present ⟨some (probeValidator v1)⟩ h0] at hget
  injection hget with hget
  injection hget with hget
  rw [← hget]
  constructor
  · show invokeSetter (SetterK.guarded k (probeValidator v1))
      (writeCell m k v1) v = _
    have hrc : readCell (writeCell m k v1) k = some v1 :=
      readCell_writeCell_self v1 hk
    have hres : probeValidator v1 k
        ((readCell (writeCell m k v1) k).getD .undefined) v
        = .ok (.sync (.bool true)) := by
      rw [hrc]
      simp [probeValidator]
    rw [invokeSetter_sync (probeValidator v1) k (writeCell m k v1) v
      (JSVal.bool true) hres]
    rfl
  · show invokeSetter (SetterK.guarded k (probeValidator v1)) m v = _
    have hres : probeValidator v1 k ((readCell m k).getD .undefined) v
        = .ok (.sync (.bool false)) := by
      rw [h0]
      simp [probeValidator, hne]
    rw [invokeSetter_sync (probeValidator v1) k m v (JSVal.bool false) hres]
    rfl

/-- Witness for C7 at a concrete input: get at value 0, mutate to 1, then
invoke — the probe validator sees 1 and commits; invoked on the unmutated
state it sees 0 and rejects. -/
theorem C7_fresh_previous_value_witness :
    invokeSetter (SetterK.guarded "a" (probeValidator (JSVal.num 1)))
        (writeCell [("a", JSVal.num 0)] "a" (JSVal.num 1)) (JSVal.num 5)
      = .ok (writeCell (writeCell [("a", JSVal.num 0)] "a" (JSVal.num 1)) "a"
          (JSVal.num 5), []) ∧
    invokeSetter (SetterK.guarded "a" (probeValidator (JSVal.num 1)))
        [("a", JSVal.num 0)] (JSVal.num 5) = .ok ([("a", JSVal.num 0)], []) :=
  C7_fresh_previous_value [("a", JSVal.num 0)] "a" (JSVal.num 0) (JSVal.num 1)
    (JSVal.num 5) ("a", SetterK.guarded "a" (probeValidator (JSVal.num 1)))
    (by decide) rfl rfl

theorem propAssign_absent (s : StoreModel) (m : CellMap) (k : Key) (v : JSVal)
    (hk : ¬ hasKey m k = true) : propAssign s m k v = .error typeError := by
  unfold propAssign setTrap
  rw [if_neg hk]
  rfl

theorem propAssign_cells {s : StoreModel} {m : CellMap} {k : Key} {v : JSVal}
    {m' : CellMap} {log : List JSVal}
    (h : propAssign s m k v = .ok (m', log)) :
    m' = m ∨ ∃ k', m' = writeCell m k' v := by
  by_cases hk : hasKey m k = true
  · obtain ⟨w, hw⟩ := readCell_some_of_hasKey hk
    unfold propAssign at h
    rw [setTrap_present_match s m k v w hw] at h
    cases hinv : invokeSetter (setterOf s k) m v with
    | error e =>
      rw [hinv] at h
      exact absurd h (by simp)
    | ok r =>
      obtain ⟨m2, log2⟩ := r
      rw [hinv] at h
      have h' : (Except.ok (m2, log2) : Except JSVal (CellMap × List JSVal))
          = Except.ok (m', log) := h
      injection h' with h'
      injection h' with h1 h2
      exact h1 ▸ invokeSetter_cells hinv
  · rw [propAssign_absent s m k v hk] at h
    exact Except.noConfusion h

theorem applyHOps_benign_hasKey (s : StoreModel) (ops : List HOp) :
    ∀ m : CellMap, (∀ op ∈ ops, benign op = true) →
      ∀ k, hasKey (applyHOps s m ops) k = hasKey m k := by
  induction ops with
  | nil =>
    intro m _ k
    rfl
  | cons op t ih =>
    intro m hb k
    have hop : benign op = true := hb op (List.mem_cons_self op t)
    have ht : ∀ op' ∈ t, benign op' = true :=
      fun op' h => hb op' (List.mem_cons_of_mem op h)
    have hstep : hasKey (applyHOp s m op) k = hasKey m k := by
      cases op with
      | hGet _ => rfl
      | hHas _ => rfl
      | hRead _ => rfl
      | hWrite k' v =>
        show hasKey (match propAssign s m k' v with
          | .ok (m', _) => m'
          | .error _ => m) k = hasKey m k
        cases hpa : propAssign s m k' v with
        | error e => rfl
        | ok r =>
          obtain ⟨m', log⟩ := r
          show hasKey m' k = hasKey m k
          rcases propAssign_cells hpa with h | ⟨k'', h⟩
          · rw [h]
          · rw [h, hasKey_writeCell]
      | hDelete _ => simp [benign] at hop
      | hClear => simp [benign] at hop
      | hMapSet _ _ => simp [benign] at hop
    have hcons : applyHOps s m (op :: t) = applyHOps s (applyHOp s m op) t := rfl
    rw [hcons, ih (applyHOp s m op) ht k, hstep]

/-- Counterexample to claim C8 as stated: on a store holding one entry, the
key "size" names a store intrinsic, yet the property-style read returns the
number 1 — not a method bound to the store. -/
theorem C8_counterexample : ¬ C8AsStated := by
  intro h
  obtain ⟨n, hn⟩ := (h ⟨none⟩ [("a", JSVal.num 0)] "size").1 (by decide)
  have hv : proxyRead ⟨none⟩ [("a", JSVal.num 0)] "size"
      = ReadResult.value (PropVal.num 1) := rfl
  rw [hv] at hn
  exact ReadResult.noConfusion hn

/-- Claim C8 (amended): a property-style read returns the store property
bound to the store when the key names a function-valued store property
(own or inherited, `Object.prototype` utilities such as `toString`
included); returns the property value itself when that value is truthy
but not a function (such as `size` of a non-empty store, or the inherited
`__proto__` object); and when the store property is absent or falsy it
returns the same pair as `get(key)` if the key is a present data key, and
the absent signal (`undefined`) otherwise. -/
theorem C8_read_dispatch (s : StoreModel) (m : CellMap) (k : Key) :
    (∀ n, targetProp s m k = some (PropVal.fn n) →
      proxyRead s m k = .boundMethod n) ∧
    (∀ p, targetProp s m k = some p → propTruthy p = true →
      (∀ n, p ≠ PropVal.fn n) → proxyRead s m k = .value p) ∧
    ((targetProp s m k = none ∨
      ∃ p, targetProp s m k = some p ∧ propTruthy p = false) →
      (hasKey m k = true →
        proxyRead s m k = .pair k (setterOf s k) ∧
        storageGet s m k = .ok (some (k, setterOf s k))) ∧
      (hasKey m k = false → proxyRead s m k = .undefined)) := by
  refine ⟨?_, ?_, ?_⟩
  · intro n hn
    unfold proxyRead
    rw [hn]
    rfl
  · intro p hp htr hnf
    unfold proxyRead
    rw [hp]
    cases p with
    | fn n => exact absurd rfl (hnf n)
    | num n =>
      show (if propTruthy (PropVal.num n) = true then
          ReadResult.value (PropVal.num n)
        else proxyReadFallback s m k) = ReadResult.value (PropVal.num n)
      rw [if_pos htr]
    | obj =>
      show (if propTruthy PropVal.obj = true then
          ReadResult.value PropVal.obj
        else proxyReadFallback s m k) = ReadResult.value PropVal.obj
      rw [if_pos htr]
    | nul => simp [propTruthy] at htr
  · intro hfall
    have hpr : proxyRead s m k = proxyReadFallback s m k := by
      rcases hfall with hnone | ⟨p, hp, hpf⟩
      · unfold proxyRead
        rw [hnone]
      · unfold proxyRead
        rw [hp]
        cases p with
        | fn n => simp [propTruthy] at hpf
        | num n =>
          show (if propTruthy (PropVal.num n) = true then
              ReadResult.value (PropVal.num n)
            else proxyReadFallback s m k) = proxyReadFallback s m k
          rw [if_neg (by simp [hpf])]
        | obj => simp [propTruthy] at hpf
        | nul =>
          show (if propTruthy PropVal.nul = true then
              ReadResult.value PropVal.nul
            else proxyReadFallback s m k) = proxyReadFallback s m k
          rw [if_neg (by simp [hpf])]
    constructor
    · intro hk
      obtain ⟨w, hw⟩ := readCell_some_of_hasKey hk
      have hget := storageGet_present s hw
      refine ⟨?_, hget⟩
      rw [hpr]
      unfold proxyReadFallback
      rw [if_pos hk, hget]
    · intro hk0
      rw [hpr]
      unfold proxyReadFallback
      rw [if_neg (by simp [hk0])]

/-- Witness for C8: reading "get" returns the store method bound. -/
theorem C8_read_dispatch_witness :
    proxyRead ⟨none⟩ [("a", JSVal.num 0)] "get" = .boundMethod "get" :=
  (C8_read_dispatch ⟨none⟩ [("a", JSVal.num 0)] "get").1 "get" rfl

/-- Counterexample to claim C9 as stated: the facade hands out the
inherited `Map.prototype.delete` bound to the store, and invoking it
removes an initial key — so the key set is not fixed under the operations
available through the store handle. -/
theorem C9_counterexample :
    proxyRead ⟨none⟩ (initCells [("a", JSVal.num 0)]) "delete"
      = .boundMethod "delete" ∧
    hasKey (initCells [("a", JSVal.num 0)]) "a" = true ∧
    hasKey (applyHOps ⟨none⟩ (initCells [("a", JSVal.num 0)])
      [HOp.hDelete "a"]) "a" = false :=
  ⟨rfl, rfl, rfl⟩

/-- Claim C9 (amended): the spec's StoreHandle surface — `get`, `has`,
property-style read and property-style write — never adds or removes an
entry: after any sequence of those operations, `has(k)` coincides with its
value on the initial cells; the inherited Map mutators (`delete`, `clear`,
`set`), which the facade also exposes bound to the store, are the only
handle-reachable operations that change the key set. -/
theorem C9_keys_fixed (s : StoreModel) (m : CellMap) (ops : List HOp)
    (hb : ∀ op ∈ ops, benign op = true) (k : Key) :
    hasKey (applyHOps s m ops) k = hasKey m k :=
  applyHOps_benign_hasKey s ops m hb k

/-- Witness for C9 at a concrete input. -/
theorem C9_keys_fixed_witness :
    hasKey (applyHOps ⟨none⟩ [("a", JSVal.num 0)]
      [HOp.hWrite "a" (JSVal.num 7), HOp.hRead "b"]) "a"
      = hasKey [("a", JSVal.num 0)] "a" :=
  C9_keys_fixed ⟨none⟩ [("a", JSVal.num 0)]
    [HOp.hWrite "a" (JSVal.num 7), HOp.hRead "b"] (by decide) "a"
